import Mathlib

/-!
Shallow embedding of `bg_space/core.py` (class `SpaceConvention`) and
`bg_space/utils.py` (`ordered_list_from_set`), together with theorems
checking the natural-language specification of the library against it.

Modelling conventions:
* Python floats are modelled as rationals (`ℚ`); all arithmetic performed
  by the library on resolutions, offsets and matrices is exact on the
  inputs we consider.
* 3D numpy arrays are modelled as a shape vector `Fin 3 → ℕ` plus a total
  value function on index vectors; reads through `Stack.get` carry the
  bounds check that numpy performs (an out-of-range integer index raises).
* Python exceptions are modelled with `Except PyErr`.
* `scipy.ndimage.zoom` is external library code.  Its output shape is
  modelled exactly (`int(round(extent * zoom))` per axis); its interpolated
  values are taken as an explicit parameter `zoomVals` of the stack
  pipeline, so every theorem about resampled data is quantified over the
  interpolation results.
-/

namespace BGSpace

/-- Anatomical direction labels: the six letters p, a, s, i, l, r
(posterior, anterior, superior, inferior, left, right) that the origin
specification of `SpaceConvention.__init__` accepts. -/
inductive Letter
| p
| a
| s
| i
| l
| r
deriving DecidableEq, Repr, Fintype

/-- Anatomical axis families: the keys of the class attribute
`SpaceConvention.space_axes` in bg_space/core.py, in dictionary order. -/
inductive Family
| sagittal
| vertical
| frontal
deriving DecidableEq, Repr, Fintype

/-- Family set containing each letter, mirroring membership in
`space_axes` (sagittal = {p, a}, vertical = {s, i}, frontal = {l, r}). -/
def Letter.family : Letter → Family
| .p => .sagittal
| .a => .sagittal
| .s => .vertical
| .i => .vertical
| .l => .frontal
| .r => .frontal

/-- The other member of the 2-element family set of a letter: the element
`next(iter(input_set - {first}))` picked by `ordered_list_from_set` in
bg_space/utils.py. -/
def Letter.opposite : Letter → Letter
| .p => .a
| .a => .p
| .s => .i
| .i => .s
| .l => .r
| .r => .l

/-- Lowercase character of a letter. -/
def Letter.char : Letter → Char
| .p => 'p'
| .a => 'a'
| .s => 's'
| .i => 'i'
| .l => 'l'
| .r => 'r'

/-- Reverse lookup performed by the `if lim in possible_lims` membership
tests of the `__init__` loop: the letter whose (lowercased) character is
`c`, if any.  The three family sets are pairwise disjoint, so at most one
of the tests succeeds for a given character. -/
def letterOfChar (c : Char) : Option Letter :=
  if c = 'p' then some .p
  else if c = 'a' then some .a
  else if c = 's' then some .s
  else if c = 'i' then some .i
  else if c = 'l' then some .l
  else if c = 'r' then some .r
  else none

/-- Two-character axis-description string appended by `__init__`: the
origin letter followed by the leftout element of its family set, as built
by `ordered_list_from_set(possible_lims, lim)`. -/
def Letter.pairStr (lt : Letter) : String :=
  String.mk [lt.char, lt.opposite.char]

/-- Name of a family, as produced by iterating `space_axes.items()`. -/
def Family.name : Family → String
| .sagittal => "sagittal"
| .vertical => "vertical"
| .frontal => "frontal"

/-- Python exceptions raised by the code paths modelled here. -/
inductive PyErr
| typeError
| assertionError
| indexError
deriving DecidableEq, Repr

instance {ε α : Type} [DecidableEq ε] [DecidableEq α] :
    DecidableEq (Except ε α) := fun a b => by
  cases a with
  | error e1 =>
    cases b with
    | error e2 =>
      rcases decEq e1 e2 with h | h
      · exact isFalse (fun hh => h (by injection hh))
      · exact isTrue (by rw [h])
    | ok a2 => exact isFalse (fun hh => by cases hh)
  | ok a1 =>
    cases b with
    | error e2 => exact isFalse (fun hh => by cases hh)
    | ok a2 =>
      rcases decEq a1 a2 with h | h
      · exact isFalse (fun hh => h (by injection hh))
      · exact isTrue (by rw [h])

/-- One token of an origin specification.  A Python string token (a
one-letter code, a full name, or the single characters obtained by
iterating over a 3-character string) is `str`; any non-string,
non-subscriptable token (e.g. an int) is `nonStr`. -/
inductive Token
| str (s : String)
| nonStr
deriving DecidableEq, Repr

/-- The per-token step of the comprehension
`origin = [o[0].lower() for o in origin]` in `__init__`: subscripting a
non-string raises TypeError, subscripting an empty string raises
IndexError, otherwise the lowercased first character is produced. -/
def tokenFirstLower : Token → Except PyErr Char
| .nonStr => .error .typeError
| .str s =>
  match s.data with
  | [] => .error .indexError
  | c :: _ => .ok c.toLower

/-- An anatomical space convention, as stored on a constructed
`SpaceConvention` instance.  `axes` holds the origin letter of each axis;
the two-character `axes_description` entries are recovered through
`Letter.pairStr`.  `shape`, `resolution` and `offset` are the optional
constructor arguments (the constructor's default offset is the all-zero
vector, modelled as `some` of the zero function). -/
structure SpaceConvention where
  axes : Fin 3 → Letter
  shape : Option (Fin 3 → ℕ)
  resolution : Option (Fin 3 → ℚ)
  offset : Option (Fin 3 → ℚ)

instance : DecidableEq SpaceConvention := fun a b => by
  rcases a with ⟨a1, a2, a3, a4⟩
  rcases b with ⟨b1, b2, b3, b4⟩
  have : Decidable (a1 = b1 ∧ a2 = b2 ∧ a3 = b3 ∧ a4 = b4) := by
    infer_instance
  rcases this with h | h
  · exact .isFalse (by simp_all)
  · exact .isTrue (by simp_all)

/-- The comprehension `[o[0].lower() for o in origin]`: evaluates
`tokenFirstLower` left to right, propagating the first exception. -/
def firstLowerAll : List Token → Except PyErr (List Char)
| [] => .ok []
| t :: rest => do
  let c ← tokenFirstLower t
  let cs ← firstLowerAll rest
  .ok (c :: cs)

/-- Embedding of `SpaceConvention.__init__`.  The origin tokens are
lowercased and truncated to their first character (raising as in Python),
looked up in the family sets (tokens matching no set contribute nothing),
and the two assertions `len(axs_description) == 3` and
`len == len(set(...))` are checked; failure of either is an
AssertionError.  On success the axis letters are stored. -/
def init (origin : List Token) (shape : Option (Fin 3 → ℕ))
    (resolution : Option (Fin 3 → ℚ)) (offset : Option (Fin 3 → ℚ)) :
    Except PyErr SpaceConvention := do
  let chars ← firstLowerAll origin
  let letters := chars.filterMap letterOfChar
  if letters.length = 3 then
    if (letters.map Letter.pairStr).Nodup then
      .ok ⟨fun i => letters.getD i.val Letter.p, shape, resolution, offset⟩
    else .error .assertionError
  else .error .assertionError

/-- Constructor default offset: the keyword default `offset=(0, 0, 0)`. -/
def defOffset : Option (Fin 3 → ℚ) := some fun _ => 0

/-- Property `axes_description`: the stored tuple of two-character
strings. -/
def SpaceConvention.axes_description (s : SpaceConvention) : List String :=
  [(s.axes 0).pairStr, (s.axes 1).pairStr, (s.axes 2).pairStr]

/-- Property `axes_order`: for each description entry, the name of the
family set containing its first character. -/
def SpaceConvention.axes_order (s : SpaceConvention) : List String :=
  [((s.axes 0).family).name, ((s.axes 1).family).name, ((s.axes 2).family).name]

/-- Property `origin`: the first character of each description entry, as a
tuple of one-character strings. -/
def SpaceConvention.origin (s : SpaceConvention) : List String :=
  [String.mk [(s.axes 0).char], String.mk [(s.axes 1).char],
    String.mk [(s.axes 2).char]]

/-- Tokens yielded by `SpaceConvention.__iter__`, which iterates over
`self.origin` so that an instance can be fed back to the constructor. -/
def iterTokens (s : SpaceConvention) : List Token :=
  s.origin.map Token.str

/-- Validity of a descriptor in the sense of the specification's data
model invariant: each of the three axes is assigned a distinct anatomical
family.  (The constructor's own assertion only rules out duplicated
description strings; all constructor-accepted three-token specifications
of distinct families satisfy this predicate.) -/
def famInj (s : SpaceConvention) : Prop :=
  Function.Injective fun i : Fin 3 => (s.axes i).family

instance (s : SpaceConvention) : Decidable (famInj s) := by
  unfold famInj Function.Injective
  infer_instance

/-- First index of the axis with family `f`, as computed by
`self.axes_order.index(ax)` inside `map_to`.  Python's `.index` raises
ValueError when the family is absent; that cannot happen between two
`famInj` descriptors, which is the situation of every claim, and in the
embedding the lookup then defaults to the last index. -/
def famIndex (s : SpaceConvention) (f : Family) : Fin 3 :=
  if (s.axes 0).family = f then 0
  else if (s.axes 1).family = f then 1
  else 2

/-- Result tuple of `SpaceConvention.map_to`, indexed in target axis
order. -/
structure MapResult where
  order : Fin 3 → Fin 3
  flips : Fin 3 → Bool
  scales : Fin 3 → ℚ
  offsets : Fin 3 → ℚ

/-- Embedding of `SpaceConvention.map_to`:
order of matching axes, required flips (comparing the two-character
description strings), scale ratios when both resolutions are given
(else all 1), and scaled offset differences when both offsets are given
(else all 0). -/
def SpaceConvention.map_to (s t : SpaceConvention) : MapResult :=
  let order : Fin 3 → Fin 3 := fun i => famIndex s ((t.axes i).family)
  let flips : Fin 3 → Bool := fun i =>
    decide ((s.axes (order i)).pairStr ≠ (t.axes i).pairStr)
  let scales : Fin 3 → ℚ :=
    match s.resolution, t.resolution with
    | some rs, some rt => fun i => rs (order i) / rt i
    | _, _ => fun _ => 1
  let offsets : Fin 3 → ℚ :=
    match s.offset, t.offset with
    | some os, some ot => fun i => (os (order i) - ot i) * scales i
    | _, _ => fun _ => 0
  ⟨order, flips, scales, offsets⟩

/-- A 3D numpy array: per-axis extents plus a total value function on
index vectors.  Only reads at indices within `shape` correspond to
Python-visible values (see `Stack.get`). -/
structure Stack where
  shape : Fin 3 → ℕ
  data : (Fin 3 → ℕ) → ℚ

/-- Bounds-checked read: numpy raises IndexError on a nonnegative integer
index that is out of range, so only in-range reads produce a value. -/
def Stack.get (st : Stack) (v : Fin 3 → ℕ) : Option ℚ :=
  if ∀ i, v i < st.shape i then some (st.data v) else none

/-- Read at rational coordinates: defined exactly when every coordinate is
a nonnegative integer within the shape (the situation of the grid-point
claims); otherwise no voxel label is read. -/
def Stack.getQ (st : Stack) (q : Fin 3 → ℚ) : Option ℚ :=
  if ∀ i, 0 ≤ q i ∧ (q i).den = 1 ∧ q i < st.shape i then
    some (st.data fun i => (q i).num.toNat)
  else none

/-- Pointwise equality of two arrays in the numpy sense: same shape and
same entries at every in-range index. -/
def Stack.EqOn (x y : Stack) : Prop :=
  x.shape = y.shape ∧
    ∀ v : Fin 3 → ℕ, (∀ i, v i < x.shape i) → x.data v = y.data v

/-- First-match inverse of an axis permutation (total; it inverts `ord`
whenever `ord` is a permutation, which numpy requires of a transpose
axis list). -/
def permInv (ord : Fin 3 → Fin 3) : Fin 3 → Fin 3 :=
  fun j => if ord 0 = j then 0 else if ord 1 = j then 1 else 2

/-- Embedding of `np.transpose(stack, order)`: the result has
`shape[i] = stack.shape[order[i]]` and `result[v] = stack[w]` where
`w[order[i]] = v[i]`, i.e. `w = v ∘ order⁻¹`. -/
def npTranspose (ord : Fin 3 → Fin 3) (st : Stack) : Stack :=
  ⟨fun i => st.shape (ord i), fun v => st.data fun j => v (permInv ord j)⟩

/-- Embedding of `np.flip(stack, axes)` for the axis list
`[i for i, f in enumerate(flips) if f]`: each flipped axis index `v i` is
reflected to `shape i - 1 - v i`. -/
def npFlip (flips : Fin 3 → Bool) (st : Stack) : Stack :=
  ⟨st.shape, fun v =>
    st.data fun i => if flips i then st.shape i - 1 - v i else v i⟩

/-- Python `int()` applied to a float: truncation toward zero. -/
def pyInt (q : ℚ) : ℤ :=
  if q < 0 then ⌈q⌉ else ⌊q⌋

/-- Python 3 `round()` applied to a float: round half to even. -/
def pyRound (q : ℚ) : ℤ :=
  let f := ⌊q⌋
  let r := q - f
  if r < 1 / 2 then f
  else if 1 / 2 < r then f + 1
  else if Even f then f else f + 1

/-- Shape semantics of `scipy.ndimage.zoom(stack, scales)`: scipy computes
`output_shape = tuple(int(round(ii * jj)) for ii, jj in zip(shape, zoom))`.
The interpolated values are external floating-point spline arithmetic and
are supplied by the caller as `zoomVals` (see the module docstring). -/
def ndZoom (zoomVals : (Fin 3 → ℕ) → ℚ) (scales : Fin 3 → ℚ)
    (st : Stack) : Stack :=
  ⟨fun i => (pyRound ((st.shape i : ℚ) * scales i)).toNat, zoomVals⟩

/-- All-zero array of the given shape, `np.zeros(target.shape)`. -/
def zeros (tsh : Fin 3 → ℕ) : Stack :=
  ⟨tsh, fun _ => 0⟩

/-- Per-axis out-of-bounds test of the crop/pad loop of `map_stack_to`:
with `o = int(offset)`, the mapped data misses the target entirely when
`o >= t_sh` or (`o < 0` and `-o >= s_sh`). -/
def axisOut (s_sh t_sh : ℕ) (off : ℚ) : Bool :=
  let o := pyInt off
  decide ((t_sh : ℤ) ≤ o) || (decide (o < 0) && decide ((s_sh : ℤ) ≤ -o))

/-- Membership of a target index in the written region of the slice
assignment `empty_stack[slices_target] = stack[slices_stack]`:
with `o = int(offsets[i])` the target slice is
`slice(max(0, o), o + s_sh)` and numpy clamps its stop at the axis extent
`t_sh`, so axis `i` of the written region is
`max(0, o) ≤ v i < min(o + s_sh, t_sh)`. -/
def inCropWindow (s3sh tsh : Fin 3 → ℕ) (offs : Fin 3 → ℚ)
    (v : Fin 3 → ℕ) : Prop :=
  ∀ i, max 0 (pyInt (offs i)) ≤ (v i : ℤ) ∧
    (v i : ℤ) < min (pyInt (offs i) + (s3sh i : ℤ)) (tsh i : ℤ)

instance (s3sh tsh : Fin 3 → ℕ) (offs : Fin 3 → ℚ) (v : Fin 3 → ℕ) :
    Decidable (inCropWindow s3sh tsh offs v) := by
  unfold inCropWindow
  infer_instance

/-- The slice assignment `empty_stack[slices_target] = stack[slices_stack]`
with `slices_target[i] = slice(max(0, o), o + s_sh)` and
`slices_stack[i] = slice(max(0, -o), t_sh - o)` (`-min(0, o)` in the
source equals `max(0, -o)`).  Both slices have the same length after
numpy clamps their stops, and the element written at target index `v`
comes from stack index `v - o` per axis; all other entries keep the zeros
of `empty_stack`. -/
def cropAssign (st3 : Stack) (tsh : Fin 3 → ℕ) (offs : Fin 3 → ℚ) :
    Stack :=
  ⟨tsh, fun v =>
    if inCropWindow st3.shape tsh offs v then
      st3.data fun i => ((v i : ℤ) - pyInt (offs i)).toNat
    else 0⟩

/-- Transpose / flip / optional-zoom prefix of
`SpaceConvention.map_stack_to` (source lines: `np.transpose`, `np.flip`,
and the `if scales != (1, 1, 1)` resampling step). -/
def mapStackPre (s t : SpaceConvention) (stack : Stack)
    (zoomVals : (Fin 3 → ℕ) → ℚ) : Stack :=
  let m := s.map_to t
  let st1 := npTranspose m.order stack
  let st2 := npFlip m.flips st1
  if m.scales = (fun _ => (1 : ℚ)) then st2 else ndZoom zoomVals m.scales st2

/-- Embedding of `SpaceConvention.map_stack_to`.  The Boolean of the
result records whether the boundary warning
"Stack is out of target shape..." was emitted.  The crop/pad branch is
taken when the computed offsets are nonzero and `to_target_shape` holds;
`np.zeros(target.shape)` raises a TypeError when the target has no shape;
the per-axis loop returns the zero buffer with a warning at the first
out-of-bounds axis and otherwise performs the slice assignment.
(The `copy` flag only controls buffer aliasing, which a value-level model
does not observe, and `interp_order` only selects the spline order inside
`scipy.ndimage.zoom`, which is part of `zoomVals` here.)

The per-axis loop of the crop/pad branch is `cropBranch`: it returns the
zero buffer with a warning at the first axis whose translated extent
misses the target entirely, and otherwise performs the slice
assignment. -/
def cropBranch (st3 : Stack) (tsh : Fin 3 → ℕ) (offs : Fin 3 → ℚ) :
    Except PyErr (Stack × Bool) :=
  if axisOut (st3.shape 0) (tsh 0) (offs 0) then .ok (zeros tsh, true)
  else if axisOut (st3.shape 1) (tsh 1) (offs 1) then .ok (zeros tsh, true)
  else if axisOut (st3.shape 2) (tsh 2) (offs 2) then .ok (zeros tsh, true)
  else .ok (cropAssign st3 tsh offs, false)

def map_stack_to (s t : SpaceConvention) (stack : Stack)
    (zoomVals : (Fin 3 → ℕ) → ℚ) (to_target_shape : Bool) :
    Except PyErr (Stack × Bool) :=
  let m := s.map_to t
  let st3 := mapStackPre s t stack zoomVals
  if m.offsets ≠ (fun _ => (0 : ℚ)) ∧ to_target_shape = true then
    match t.shape with
    | none => .error .typeError
    | some tsh => cropBranch st3 tsh m.offsets
  else .ok (st3, false)

/-- Coercion of an axis index into the 4×4 homogeneous index space. -/
def up (i : Fin 3) : Fin 4 :=
  ⟨i.val, by omega⟩

/-- A 4×4 rational matrix. -/
def Mat4 : Type :=
  Fin 4 → Fin 4 → ℚ

/-- One iteration of the loop of `transformation_matrix_to` at target
axis `ai` (with `bi = order[ai]`): write the signed scale at
`[ai, bi]`, raise TypeError when a flip is required and the source space
has no shape, and write the translation
`(shape[bi] if flips[ai] else 0) + offsets[ai]` at `[ai, 3]`. -/
def matStep (shape : Option (Fin 3 → ℕ)) (m : MapResult) (ai : Fin 3)
    (mat : Mat4) : Except PyErr Mat4 :=
  let diag : Mat4 := fun i j =>
    if i = up ai ∧ j = up (m.order ai) then
      (if m.flips ai then -(m.scales ai) else m.scales ai)
    else mat i j
  match shape with
  | none =>
    if m.flips ai then .error .typeError
    else .ok fun i j =>
      if i = up ai ∧ j = 3 then (0 : ℚ) + m.offsets ai else diag i j
  | some sh =>
    .ok fun i j =>
      if i = up ai ∧ j = 3 then
        (if m.flips ai then (sh (m.order ai) : ℚ) else 0) + m.offsets ai
      else diag i j

/-- Embedding of `SpaceConvention.transformation_matrix_to`: a zero 4×4
matrix with `[-1, -1] = 1`, filled by the loop over the three target
axes. -/
def transformation_matrix_to (s t : SpaceConvention) : Except PyErr Mat4 := do
  let m := s.map_to t
  let mat0 : Mat4 := fun i j => if i = 3 ∧ j = 3 then 1 else 0
  let m1 ← matStep s.shape m 0 mat0
  let m2 ← matStep s.shape m 1 m1
  let m3 ← matStep s.shape m 2 m2
  .ok m3

/-- A numpy points argument: either a single 3-vector (rank 1) or an
n×3 array (rank 2, one function per row). -/
inductive PtsArray
| vec (v : Fin 3 → ℚ)
| mat (rows : List (Fin 3 → ℚ))

instance : DecidableEq PtsArray := fun a b => by
  rcases a with v | rs <;> rcases b with w | ts
  · have : Decidable (v = w) := by infer_instance
    rcases this with h | h
    · exact .isFalse (by simpa using h)
    · exact .isTrue (by rw [h])
  · exact .isFalse (by simp)
  · exact .isFalse (by simp)
  · have : Decidable (rs = ts) := by infer_instance
    rcases this with h | h
    · exact .isFalse (by simpa using h)
    · exact .isTrue (by rw [h])

/-- Array rank of a points argument or result. -/
def PtsArray.rank : PtsArray → ℕ
| .vec _ => 1
| .mat _ => 2

/-- Homogeneous extension of a point: the column of ones inserted by
`np.insert(pts, 3, np.ones(...), axis=1)`. -/
def homog (p : Fin 3 → ℚ) : Fin 4 → ℚ :=
  fun j => if h : (j : ℕ) < 3 then p ⟨j, h⟩ else 1

/-- Embedding of `SpaceConvention.map_points_to`: `np.array(pts)` with a
leading axis added when the input is a single vector, matrix
construction (propagating its TypeError), homogeneous multiplication
`(mat @ pts_h.T).T` and truncation to the first three columns.  The
result of the numpy expression is always a rank-2 array. -/
def map_points_to (s t : SpaceConvention) (pts : PtsArray) :
    Except PyErr PtsArray :=
  let rows : List (Fin 3 → ℚ) :=
    match pts with
    | .vec v => [v]
    | .mat rs => rs
  do
  let tm ← transformation_matrix_to s t
  .ok (.mat (rows.map fun pt => fun i : Fin 3 =>
    ∑ j : Fin 4, tm (up i) j * homog pt j))

/-!
Spec-side definitions.  Each of the following is written from the
wording of a claim (never from the source) and is compared with the
corresponding embedded source function by a refinement theorem or refuted
by a counterexample.
-/

/-- Spec wording of claim C3: "order[i] is the index in source's
axes_order of the axis family equal to target's i-th axis family". -/
def specOrder (s t : SpaceConvention) (i : Fin 3) : ℕ :=
  s.axes_order.indexOf (t.axes_order.getD i.val "")

/-- Spec wording of claim C3: "flips[i] is true iff
source.axes_description[order[i]] != target.axes_description[i]". -/
def specFlips (s t : SpaceConvention) (i : Fin 3) : Bool :=
  decide (s.axes_description.getD (specOrder s t i) "" ≠
    t.axes_description.getD i.val "")

/-- Spec wording of claim C3: "scales[i] =
source.resolution[order[i]] / target.resolution[i] when both descriptors
carry a resolution and 1 otherwise".  (The claim indexes the source
resolution at `order[i]`, which is below 3 for valid descriptors; the
reduction modulo 3 makes the lookup total and is inert there.) -/
def specScales (s t : SpaceConvention) (i : Fin 3) : ℚ :=
  match s.resolution, t.resolution with
  | some rs, some rt =>
    rs ⟨specOrder s t i % 3, Nat.mod_lt _ (by omega)⟩ / rt i
  | _, _ => 1

/-- Spec wording of claim C3: "offsets[i] =
(source.offset[order[i]] - target.offset[i]) * scales[i] when both
offsets are present and 0 otherwise". -/
def specOffsets (s t : SpaceConvention) (i : Fin 3) : ℚ :=
  match s.offset, t.offset with
  | some os, some ot =>
    (os ⟨specOrder s t i % 3, Nat.mod_lt _ (by omega)⟩ - ot i) *
      specScales s t i
  | _, _ => 0

/-- Written region of the slice pair stated by claim C6 — per axis the
target slice `[max(0,o) : o+s]` clamped by numpy to the target extent,
i.e. `max(0,o) ≤ v < min(o+s, t)` — for a generic rounding function
`oFn` turning `offsets[i]` into the integer translation `o`. -/
def windowSpec (oFn : ℚ → ℤ) (s3sh tsh : Fin 3 → ℕ) (offs : Fin 3 → ℚ)
    (v : Fin 3 → ℕ) : Prop :=
  ∀ i, max 0 (oFn (offs i)) ≤ (v i : ℤ) ∧
    (v i : ℤ) < min (oFn (offs i) + (s3sh i : ℤ)) (tsh i : ℤ)

instance (oFn : ℚ → ℤ) (s3sh tsh : Fin 3 → ℕ) (offs : Fin 3 → ℚ)
    (v : Fin 3 → ℕ) : Decidable (windowSpec oFn s3sh tsh offs v) := by
  unfold windowSpec
  infer_instance

/-- Spec wording of claim C6: the crop/pad step builds, for each axis,
the target slice `[max(0,o) : o+s]` and source slice `[max(0,-o) : t-o]`
from an integer translation `o` obtained from `offsets[i]` by the rounding
function `oFn`; claim C6 asserts `oFn = round`.  Under numpy slice
semantics the assignment writes target index `v` from source index
`v - o` inside `windowSpec`, and leaves the zero initialisation
elsewhere. -/
def cropSpec (oFn : ℚ → ℤ) (st3 : Stack) (tsh : Fin 3 → ℕ)
    (offs : Fin 3 → ℚ) : Stack :=
  ⟨tsh, fun v =>
    if windowSpec oFn st3.shape tsh offs v then
      st3.data fun i => ((v i : ℤ) - oFn (offs i)).toNat
    else 0⟩

/-- Spec wording of claims C6/C5: the per-axis entirely-out-of-bounds
condition "o >= t, or o < 0 and -o >= s", with `o = oFn(offsets[i])`,
`s` the transformed extent and `t` the target extent. -/
def outSpec (oFn : ℚ → ℤ) (s_sh t_sh : ℕ) (off : ℚ) : Prop :=
  (t_sh : ℤ) ≤ oFn off ∨ (oFn off < 0 ∧ (s_sh : ℤ) ≤ -(oFn off))

instance (oFn : ℚ → ℤ) (s_sh t_sh : ℕ) (off : ℚ) :
    Decidable (outSpec oFn s_sh t_sh off) := by
  unfold outSpec
  infer_instance

/-- Spec wording of claim C9: the rows of the points argument (a single
3-vector is one row). -/
def specRows : PtsArray → List (Fin 3 → ℚ)
| .vec v => [v]
| .mat rs => rs

/-- Spec wording of claim C9: apply the 4×4 matrix to the homogeneous
extension of a point and keep the first 3 coordinates. -/
def specApplyMat (tm : Mat4) (pt : Fin 3 → ℚ) : Fin 3 → ℚ :=
  fun i => ∑ j : Fin 4, tm (up i) j * homog pt j

/-!
Helper lemmas: the axis permutation computed by `map_to` between two
family-injective descriptors, its inverse, and the symmetry of the flip
flags.
-/

/-- A family-injective assignment of the three axes is onto the three
families. -/
theorem famSurj {s : SpaceConvention} (h : famInj s) (f : Family) :
    ∃ i, (s.axes i).family = f := by
  have hb : Function.Bijective fun i : Fin 3 => (s.axes i).family :=
    (Fintype.bijective_iff_injective_and_card _).mpr ⟨h, by decide⟩
  exact hb.2 f

/-- The axis found by `famIndex` indeed carries the requested family. -/
theorem famIndex_family {s : SpaceConvention} (h : famInj s) (f : Family) :
    (s.axes (famIndex s f)).family = f := by
  unfold famIndex
  by_cases h0 : (s.axes 0).family = f
  · simp [h0]
  · by_cases h1 : (s.axes 1).family = f
    · simp [h0, h1]
    · obtain ⟨i, hi⟩ := famSurj h f
      fin_cases i
      · exact absurd hi h0
      · exact absurd hi h1
      · simpa [h0, h1] using hi

/-- Looking up the family of axis `i` finds `i` back. -/
theorem famIndex_axes {s : SpaceConvention} (h : famInj s) (i : Fin 3) :
    famIndex s ((s.axes i).family) = i := by
  unfold famIndex
  by_cases h0 : (s.axes 0).family = (s.axes i).family
  · simpa [h0] using h h0
  · by_cases h1 : (s.axes 1).family = (s.axes i).family
    · simpa [h0, h1] using h h1
    · have : i ≠ 0 := fun hh => h0 (by rw [hh])
      have h1i : i ≠ 1 := fun hh => h1 (by rw [hh])
      simp only [h0, h1, if_false]
      omega

/-- The permutations computed by `map_to` in the two directions are
mutually inverse. -/
theorem order_comp {s t : SpaceConvention} (hs : famInj s) (ht : famInj t)
    (i : Fin 3) : (s.map_to t).order ((t.map_to s).order i) = i := by
  show famIndex s ((t.axes (famIndex t ((s.axes i).family))).family) = i
  rw [famIndex_family ht, famIndex_axes hs]

/-- The first-match inverse of the forward permutation is the backward
permutation. -/
theorem permInv_order {s t : SpaceConvention} (hs : famInj s)
    (ht : famInj t) :
    permInv ((s.map_to t).order) = (t.map_to s).order := by
  funext j
  have hst : ∀ k, (s.map_to t).order ((t.map_to s).order k) = k :=
    order_comp hs ht
  have hts : ∀ k, (t.map_to s).order ((s.map_to t).order k) = k :=
    order_comp ht hs
  unfold permInv
  by_cases h0 : (s.map_to t).order 0 = j
  · have e : (t.map_to s).order j = 0 := by
      rw [← h0]
      exact hts 0
    simp [h0, e]
  · by_cases h1 : (s.map_to t).order 1 = j
    · have e : (t.map_to s).order j = 1 := by
        rw [← h1]
        exact hts 1
      simp [h0, h1, e]
    · have e : (t.map_to s).order j = 2 := by
        have hj := hst j
        have hj0 : (t.map_to s).order j ≠ 0 := fun hh => by
          rw [hh] at hj
          exact h0 hj
        have hj1 : (t.map_to s).order j ≠ 1 := fun hh => by
          rw [hh] at hj
          exact h1 hj
        omega
      simp [h0, h1, e]

/-- Symmetry of the flip flags between the two directions of `map_to`. -/
theorem flips_comp {s t : SpaceConvention} (hs : famInj s) (ht : famInj t)
    (i : Fin 3) :
    (t.map_to s).flips ((s.map_to t).order i) = (s.map_to t).flips i := by
  show decide ((t.axes ((t.map_to s).order ((s.map_to t).order i))).pairStr ≠
      (s.axes ((s.map_to t).order i)).pairStr) = _
  rw [order_comp ht hs]
  exact decide_eq_decide.mpr ⟨fun h => fun hh => h hh.symm,
    fun h => fun hh => h hh.symm⟩

/-!
Unfolding lemmas for the array operations (all definitional), and the
transpose/flip round-trip argument shared by claims C1 and C2.
-/

theorem npTranspose_shape (ord : Fin 3 → Fin 3) (st : Stack) (i : Fin 3) :
    (npTranspose ord st).shape i = st.shape (ord i) :=
  rfl

theorem npTranspose_data (ord : Fin 3 → Fin 3) (st : Stack)
    (v : Fin 3 → ℕ) :
    (npTranspose ord st).data v = st.data fun j => v (permInv ord j) :=
  rfl

theorem npFlip_shape (f : Fin 3 → Bool) (st : Stack) (i : Fin 3) :
    (npFlip f st).shape i = st.shape i :=
  rfl

theorem npFlip_data (f : Fin 3 → Bool) (st : Stack) (v : Fin 3 → ℕ) :
    (npFlip f st).data v =
      st.data fun i => if f i then st.shape i - 1 - v i else v i :=
  rfl

/-- With `to_target_shape` left at its default `False`, the crop/pad
branch of `map_stack_to` is skipped whatever the offsets are, and no
warning is emitted. -/
theorem map_stack_to_no_target_shape (s t : SpaceConvention) (stack : Stack)
    (zoomVals : (Fin 3 → ℕ) → ℚ) :
    map_stack_to s t stack zoomVals false =
      .ok (mapStackPre s t stack zoomVals, false) := by
  simp [map_stack_to]

/-- When the computed scales are all 1, the `map_stack_to` pipeline is the
pure transpose-and-flip. -/
theorem mapStackPre_no_zoom {s t : SpaceConvention} (stack : Stack)
    (zoomVals : (Fin 3 → ℕ) → ℚ)
    (hsc : (s.map_to t).scales = fun _ => 1) :
    mapStackPre s t stack zoomVals =
      npFlip (s.map_to t).flips (npTranspose (s.map_to t).order stack) := by
  simp [mapStackPre, hsc]

/-- When some computed scale differs from 1, the pipeline resamples. -/
theorem mapStackPre_zoom {s t : SpaceConvention} (stack : Stack)
    (zoomVals : (Fin 3 → ℕ) → ℚ)
    (hsc : (s.map_to t).scales ≠ fun _ => 1) :
    mapStackPre s t stack zoomVals =
      ndZoom zoomVals (s.map_to t).scales
        (npFlip (s.map_to t).flips (npTranspose (s.map_to t).order stack)) := by
  simp [mapStackPre, hsc]

/-- Python rounds an integral value to itself. -/
theorem pyRound_natCast (n : ℕ) : pyRound (n : ℚ) = n := by
  unfold pyRound
  have hf : ⌊(n : ℚ)⌋ = (n : ℤ) := Int.floor_natCast n
  rw [hf]
  have h1 : (n : ℚ) - ((n : ℤ) : ℚ) < 1 / 2 := by
    push_cast
    norm_num
  simp [h1]

/-- Python 3 rounds three halves up to the even integer 2. -/
theorem pyRound_three_halves : pyRound ((3 : ℚ) / 2) = 2 := by
  unfold pyRound
  have hf : ⌊(3 : ℚ) / 2⌋ = 1 := by
    rw [Int.floor_eq_iff]
    norm_num
  rw [hf]
  have h1 : ¬ ((3 : ℚ) / 2 - ((1 : ℤ) : ℚ) < 1 / 2) := by
    push_cast
    norm_num
  have h2 : ¬ ((1 : ℚ) / 2 < (3 : ℚ) / 2 - ((1 : ℤ) : ℚ)) := by
    push_cast
    norm_num
  have h3 : ¬ Even (1 : ℤ) := by decide
  simp [h1, h2, h3]
  norm_num

/-- Transposing and flipping to the target convention and back
reconstructs the array exactly. -/
theorem flip_transpose_roundtrip {A B : SpaceConvention} (hA : famInj A)
    (hB : famInj B) (X : Stack) :
    (npFlip (A.map_to B).flips (npTranspose (A.map_to B).order
      (npFlip (B.map_to A).flips
        (npTranspose (B.map_to A).order X)))).EqOn X := by
  have hshape : ∀ i,
      (npFlip (A.map_to B).flips (npTranspose (A.map_to B).order
        (npFlip (B.map_to A).flips
          (npTranspose (B.map_to A).order X)))).shape i = X.shape i := by
    intro i
    show X.shape ((B.map_to A).order ((A.map_to B).order i)) = X.shape i
    rw [order_comp hB hA]
  constructor
  · funext i
    exact hshape i
  · intro v hv
    have hvX : ∀ i, v i < X.shape i := fun i => by
      have := hv i
      rwa [hshape i] at this
    rw [npFlip_data, npTranspose_data, npFlip_data, npTranspose_data]
    apply congrArg X.data
    funext k
    simp only [npFlip_shape, npTranspose_shape, permInv_order hA hB,
      permInv_order hB hA, order_comp hB hA, flips_comp hA hB]
    by_cases hf : (A.map_to B).flips k = true
    · simp only [hf, if_true]
      have := hvX k
      omega
    · simp only [hf, if_false]
      simp at hf
      simp [hf]

/-!
Claim C2: round-trip stack mapping.
-/

/-- C2 (amended): for valid descriptors `A` and `B` with default zero
offsets whose computed scale factors are all 1 in both directions (in
particular whenever both resolutions are absent), mapping a stack from
`B`'s convention to `A`'s and back reconstructs the stack exactly: the
permutation-plus-flip mapping is self-inverse under round-trip. -/
theorem map_stack_roundtrip_reconstructs (A B : SpaceConvention) (X : Stack)
    (zv1 zv2 : (Fin 3 → ℕ) → ℚ) (hA : famInj A) (hB : famInj B)
    (_hoA : A.offset = defOffset) (_hoB : B.offset = defOffset)
    (hsc1 : (B.map_to A).scales = fun _ => 1)
    (hsc2 : (A.map_to B).scales = fun _ => 1) :
    ∃ Y Z : Stack,
      map_stack_to B A X zv1 false = .ok (Y, false) ∧
      map_stack_to A B Y zv2 false = .ok (Z, false) ∧ Z.EqOn X := by
  refine ⟨mapStackPre B A X zv1, mapStackPre A B (mapStackPre B A X zv1) zv2,
    map_stack_to_no_target_shape B A X zv1,
    map_stack_to_no_target_shape A B _ zv2, ?_⟩
  rw [mapStackPre_no_zoom _ zv2 hsc2, mapStackPre_no_zoom _ zv1 hsc1]
  exact flip_transpose_roundtrip hA hB X

/-- Concrete spaces and stack witnessing claim C2's theorem. -/
def spASL : SpaceConvention :=
  ⟨![.a, .s, .l], none, none, defOffset⟩

def spSAL : SpaceConvention :=
  ⟨![.s, .a, .l], none, none, defOffset⟩

def stX211 : Stack :=
  ⟨![2, 1, 1], fun v => (v 0 : ℚ)⟩

def zvZero : (Fin 3 → ℕ) → ℚ :=
  fun _ => 0

/-- Witness for the C2 theorem at a concrete input. -/
theorem map_stack_roundtrip_reconstructs_witness :
    famInj spASL ∧ famInj spSAL ∧ spASL.offset = defOffset ∧
      spSAL.offset = defOffset ∧
      (spSAL.map_to spASL).scales = (fun _ => 1) ∧
      (spASL.map_to spSAL).scales = (fun _ => 1) ∧
      ∃ Y Z : Stack,
        map_stack_to spSAL spASL stX211 zvZero false = .ok (Y, false) ∧
        map_stack_to spASL spSAL Y zvZero false = .ok (Z, false) ∧
        Z.EqOn stX211 :=
  ⟨by decide, by decide, rfl, rfl, by decide, by decide,
    map_stack_roundtrip_reconstructs spASL spSAL stX211 zvZero zvZero
      (by decide) (by decide) rfl rfl (by decide) (by decide)⟩

/-- Spaces with equal resolutions `(1, 2, 1)` but swapped first two axis
families: the computed scale factors are then not all 1 and `map_stack_to`
resamples despite the equal resolution tuples. -/
def spASLr : SpaceConvention :=
  ⟨![.a, .s, .l], none, some ![1, 2, 1], defOffset⟩

def spSALr : SpaceConvention :=
  ⟨![.s, .a, .l], none, some ![1, 2, 1], defOffset⟩

def stX311 : Stack :=
  ⟨![3, 1, 1], fun _ => 0⟩

/-- The intermediate and final stacks of the round trip of the C2
counterexample. -/
def stC2mid : Stack :=
  mapStackPre spSALr spASLr stX311 zvZero

def stC2out : Stack :=
  mapStackPre spASLr spSALr stC2mid zvZero

/-- Counterexample to claim C2 as stated: the two descriptors are valid,
their resolution tuples are equal and their offsets are the default
zeros, yet the round trip does not reconstruct the 3×1×1 stack — the
axis-family permutation makes the computed scales `(2, 1/2, 1)`, scipy
resampling runs, and the reconstructed first extent is
`round(2*round(3/2)) = 4 ≠ 3`, whatever values the interpolation
produces. -/
theorem map_stack_roundtrip_counterexample :
    famInj spASLr ∧ famInj spSALr ∧
      spASLr.resolution = spSALr.resolution ∧
      spASLr.offset = defOffset ∧ spSALr.offset = defOffset ∧
      map_stack_to spSALr spASLr stX311 zvZero false = .ok (stC2mid, false) ∧
      map_stack_to spASLr spSALr stC2mid zvZero false =
        .ok (stC2out, false) ∧
      stC2out.shape 0 = 4 ∧ stX311.shape 0 = 3 ∧
      ¬ stC2out.EqOn stX311 := by
  have hne1 : (spSALr.map_to spASLr).scales ≠ (fun _ => (1 : ℚ)) := by
    intro h
    have h0 := congrFun h 0
    have he : (spSALr.map_to spASLr).scales 0 = 2 / 1 := rfl
    rw [he] at h0
    norm_num at h0
  have hne2 : (spASLr.map_to spSALr).scales ≠ (fun _ => (1 : ℚ)) := by
    intro h
    have h0 := congrFun h 0
    have he : (spASLr.map_to spSALr).scales 0 = 2 / 1 := rfl
    rw [he] at h0
    norm_num at h0
  have hmid : stC2mid.shape 1 = 2 := by
    rw [stC2mid, mapStackPre_zoom stX311 zvZero hne1]
    show (pyRound ((stX311.shape ((spSALr.map_to spASLr).order 1) : ℚ) *
      (spSALr.map_to spASLr).scales 1)).toNat = 2
    have ho : (spSALr.map_to spASLr).order 1 = 0 := rfl
    have hs : (spSALr.map_to spASLr).scales 1 = 1 / 2 := rfl
    rw [ho, hs]
    have hsh : stX311.shape 0 = 3 := rfl
    rw [hsh]
    have hq : ((3 : ℕ) : ℚ) * (1 / 2) = (3 : ℚ) / 2 := by push_cast; ring
    rw [hq, pyRound_three_halves]
    rfl
  have hout : stC2out.shape 0 = 4 := by
    rw [stC2out, mapStackPre_zoom stC2mid zvZero hne2]
    show (pyRound ((stC2mid.shape ((spASLr.map_to spSALr).order 0) : ℚ) *
      (spASLr.map_to spSALr).scales 0)).toNat = 4
    have ho : (spASLr.map_to spSALr).order 0 = 1 := rfl
    have hs : (spASLr.map_to spSALr).scales 0 = 2 / 1 := rfl
    rw [ho, hs, hmid]
    have hq : ((2 : ℕ) : ℚ) * (2 / 1) = ((4 : ℕ) : ℚ) := by push_cast; ring
    rw [hq, pyRound_natCast]
    rfl
  refine ⟨by decide, by decide, rfl, rfl, rfl,
    map_stack_to_no_target_shape _ _ _ _,
    map_stack_to_no_target_shape _ _ _ _, hout, rfl, ?_⟩
  intro h
  have h0 := congrFun h.1 0
  have e3 : stX311.shape 0 = 3 := rfl
  omega

/-!
Matrix machinery: closed forms for the loop of
`transformation_matrix_to`.
-/

/-- The initial matrix of `transformation_matrix_to`: zeros with the
homogeneous 1 at `[-1, -1]`. -/
def mat40 : Mat4 :=
  fun i j => if i = 3 ∧ j = 3 then 1 else 0

/-- Net effect of one successful loop iteration of
`transformation_matrix_to` on the matrix. -/
def matUpd (sh : Fin 3 → ℕ) (m : MapResult) (ai : Fin 3) (mat : Mat4) :
    Mat4 :=
  fun i j =>
    if i = up ai ∧ j = 3 then
      (if m.flips ai then (sh (m.order ai) : ℚ) else 0) + m.offsets ai
    else if i = up ai ∧ j = up (m.order ai) then
      (if m.flips ai then -(m.scales ai) else m.scales ai)
    else mat i j

theorem matStep_some (sh : Fin 3 → ℕ) (m : MapResult) (ai : Fin 3)
    (mat : Mat4) : matStep (some sh) m ai mat = .ok (matUpd sh m ai mat) :=
  rfl

theorem exc_bind_ok {α β : Type} (v : α) (f : α → Except PyErr β) :
    (Except.ok v >>= f) = f v :=
  rfl

theorem exc_bind_error {α β : Type} (e : PyErr) (f : α → Except PyErr β) :
    ((Except.error e : Except PyErr α) >>= f) = Except.error e :=
  rfl

theorem matStep_none_flip {m : MapResult} {ai : Fin 3} {mat : Mat4}
    (h : m.flips ai = true) : matStep none m ai mat = .error .typeError := by
  simp [matStep, h]

theorem matStep_none_noflip {m : MapResult} {ai : Fin 3} {mat : Mat4}
    (h : m.flips ai = false) :
    matStep none m ai mat = .ok (matUpd (fun _ => 0) m ai mat) := by
  unfold matStep matUpd
  rw [h]
  simp

/-- The matrix produced by `transformation_matrix_to` when the source
space carries a shape. -/
def tmTriple (s t : SpaceConvention) (sh : Fin 3 → ℕ) : Mat4 :=
  matUpd sh (s.map_to t) 2
    (matUpd sh (s.map_to t) 1 (matUpd sh (s.map_to t) 0 mat40))

theorem tm_some {s t : SpaceConvention} {sh : Fin 3 → ℕ}
    (hsh : s.shape = some sh) :
    transformation_matrix_to s t = .ok (tmTriple s t sh) := by
  unfold transformation_matrix_to tmTriple mat40
  rw [hsh]
  rfl

theorem up_inj {a b : Fin 3} : up a = up b ↔ a = b := by
  unfold up
  constructor
  · intro h
    have hv := congrArg Fin.val h
    exact Fin.ext (by simpa using hv)
  · intro h
    rw [h]

theorem up_ne_three (k : Fin 3) : up k ≠ 3 := by
  fin_cases k <;> decide

/-- Translation column of the produced matrix. -/
theorem tmTriple_col3 (s t : SpaceConvention) (sh : Fin 3 → ℕ)
    (ai : Fin 3) :
    tmTriple s t sh (up ai) 3 =
      (if (s.map_to t).flips ai then ((sh ((s.map_to t).order ai) : ℚ))
        else 0) + (s.map_to t).offsets ai := by
  fin_cases ai <;> simp [tmTriple, matUpd, up_inj, up_ne_three, mat40]

/-- Linear part of the produced matrix: signed scale at the matched
source axis, zero elsewhere. -/
theorem tmTriple_lin (s t : SpaceConvention) (sh : Fin 3 → ℕ)
    (ai j : Fin 3) :
    tmTriple s t sh (up ai) (up j) =
      if j = (s.map_to t).order ai then
        (if (s.map_to t).flips ai then -((s.map_to t).scales ai)
          else (s.map_to t).scales ai)
      else 0 := by
  fin_cases ai <;> simp [tmTriple, matUpd, up_inj, up_ne_three, mat40]

/-!
Claim C4: shape requirement of the transformation matrix.
-/

/-- C4: for valid descriptors, `transformation_matrix_to` raises a
TypeError exactly when the source shape is absent and some axis requires
a flip; with no flipped axis an absent shape never fails, and supplying a
shape always yields a matrix. -/
theorem tm_typeerror_iff_flip_without_shape (s t : SpaceConvention)
    (_hs : famInj s) (_ht : famInj t) :
    ((transformation_matrix_to s t = .error .typeError) ↔
      (s.shape = none ∧ ∃ i, (s.map_to t).flips i = true)) ∧
    (∀ sh, s.shape = some sh →
      transformation_matrix_to s t = .ok (tmTriple s t sh)) := by
  refine ⟨?_, fun sh hsh => tm_some hsh⟩
  cases hsh : s.shape with
  | some sh =>
    rw [tm_some hsh]
    constructor
    · intro h
      simp at h
    · rintro ⟨h, -⟩
      simp [hsh] at h
  | none =>
    simp only [transformation_matrix_to, hsh]
    cases hf0 : (s.map_to t).flips 0 with
    | true =>
      simp only [matStep_none_flip hf0, exc_bind_error]
      exact ⟨fun _ => ⟨by trivial, 0, hf0⟩, fun _ => by trivial⟩
    | false =>
      simp only [matStep_none_noflip hf0, exc_bind_ok]
      cases hf1 : (s.map_to t).flips 1 with
      | true =>
        simp only [matStep_none_flip hf1, exc_bind_error]
        exact ⟨fun _ => ⟨by trivial, 1, hf1⟩, fun _ => by trivial⟩
      | false =>
        simp only [matStep_none_noflip hf1, exc_bind_ok]
        cases hf2 : (s.map_to t).flips 2 with
        | true =>
          simp only [matStep_none_flip hf2, exc_bind_error]
          exact ⟨fun _ => ⟨by trivial, 2, hf2⟩, fun _ => by trivial⟩
        | false =>
          simp only [matStep_none_noflip hf2, exc_bind_ok]
          constructor
          · intro h
            simp at h
          · rintro ⟨-, i, hi⟩
            fin_cases i <;> simp_all

/-- Concrete target space with a flipped first axis relative to
`spASL`. -/
def spPSL : SpaceConvention :=
  ⟨![.p, .s, .l], none, none, defOffset⟩

/-- Witness for the C4 theorem at a concrete pair of descriptors. -/
theorem tm_typeerror_iff_flip_without_shape_witness :
    famInj spASL ∧ famInj spPSL ∧
      (((transformation_matrix_to spASL spPSL = .error .typeError) ↔
        (spASL.shape = none ∧ ∃ i, (spASL.map_to spPSL).flips i = true)) ∧
      (∀ sh, spASL.shape = some sh →
        transformation_matrix_to spASL spPSL = .ok (tmTriple spASL spPSL sh))) :=
  ⟨by decide, by decide,
    tm_typeerror_iff_flip_without_shape spASL spPSL (by decide) (by decide)⟩

/-!
Claim C1: agreement of `map_points_to` with `map_stack_to`.
-/

theorem fin3_cases (k : Fin 3) : k = 0 ∨ k = 1 ∨ k = 2 := by
  fin_cases k <;> simp

theorem up0 : (0 : Fin 4) = up 0 :=
  rfl

theorem up1 : (1 : Fin 4) = up 1 :=
  rfl

theorem up2 : (2 : Fin 4) = up 2 :=
  rfl

theorem homog_up (p : Fin 3 → ℚ) (k : Fin 3) : homog p (up k) = p k := by
  unfold homog up
  rw [dif_pos (show ((⟨k.val, by omega⟩ : Fin 4) : ℕ) < 3 from k.isLt)]

theorem homog_three (p : Fin 3 → ℚ) : homog p 3 = 1 :=
  rfl

/-- Row-level closed form of `map_points_to` on a single point when the
source space carries a shape: each output coordinate is the signed scale
times the matched input coordinate plus the translation column. -/
theorem map_points_vec_formula {s t : SpaceConvention} {sh : Fin 3 → ℕ}
    (hsh : s.shape = some sh) (v : Fin 3 → ℚ) :
    map_points_to s t (.vec v) = .ok (.mat [fun i =>
      (if (s.map_to t).flips i then -((s.map_to t).scales i)
        else (s.map_to t).scales i) * v ((s.map_to t).order i) +
      ((if (s.map_to t).flips i then ((sh ((s.map_to t).order i) : ℚ))
        else 0) + (s.map_to t).offsets i)]) := by
  unfold map_points_to
  rw [tm_some hsh, exc_bind_ok]
  refine congrArg _ (congrArg _ ?_)
  simp only [List.map]
  refine congrArg (fun r => [r] : (Fin 3 → ℚ) → List (Fin 3 → ℚ)) ?_
  funext i
  rw [Fin.sum_univ_four, up0, up1, up2, homog_up, homog_up, homog_up,
    homog_three, tmTriple_lin, tmTriple_lin, tmTriple_lin, tmTriple_col3]
  rcases fin3_cases ((s.map_to t).order i) with ho | ho | ho <;>
    rw [ho] <;> simp

/-- Coordinate at which the voxel at source index `c` lands after the
transpose-and-flip of `map_stack_to` (source shape `sh`): the matched
source coordinate, reflected on flipped axes. -/
def placedAt (m : MapResult) (sh : Fin 3 → ℕ) (c : Fin 3 → ℕ) :
    Fin 3 → ℕ :=
  fun i => if m.flips i then sh (m.order i) - 1 - c (m.order i)
    else c (m.order i)

/-- C1 (amended): for valid descriptors with the source carrying a shape
and no rescaling or offset (computed scales all 1 and offsets all 0),
`map_stack_to` places the voxel that was at integer coordinate `c` at
`placedAt c` (reading the mapped stack there yields the original label),
and `map_points_to` maps `c` to exactly that coordinate plus 1 on each
flipped axis — the matrix translation uses `shape`, not `shape - 1`, so
the two agree exactly on non-flipped axes and differ by one voxel on
flipped axes. -/
theorem points_track_stack_mapping (A B : SpaceConvention)
    (sh : Fin 3 → ℕ) (X : Stack) (zv : (Fin 3 → ℕ) → ℚ) (c : Fin 3 → ℕ)
    (hA : famInj A) (hB : famInj B) (hsh : A.shape = some sh)
    (hXsh : X.shape = sh)
    (hsc : (A.map_to B).scales = fun _ => 1)
    (hoff : (A.map_to B).offsets = fun _ => 0)
    (hc : ∀ i, c i < sh i) :
    ∃ Y, map_stack_to A B X zv false = .ok (Y, false) ∧
      Y.get (placedAt (A.map_to B) sh c) = some (X.data c) ∧
      map_points_to A B (.vec fun i => (c i : ℚ)) = .ok (.mat [fun i =>
        (placedAt (A.map_to B) sh c i : ℚ) +
          (if (A.map_to B).flips i then 1 else 0)]) := by
  refine ⟨mapStackPre A B X zv, map_stack_to_no_target_shape A B X zv,
    ?_, ?_⟩
  · rw [mapStackPre_no_zoom X zv hsc]
    have hshape : ∀ i,
        (npFlip (A.map_to B).flips
          (npTranspose (A.map_to B).order X)).shape i =
        sh ((A.map_to B).order i) := fun i => by
      rw [npFlip_shape, npTranspose_shape, hXsh]
    have hb : ∀ i, placedAt (A.map_to B) sh c i <
        (npFlip (A.map_to B).flips
          (npTranspose (A.map_to B).order X)).shape i := by
      intro i
      rw [hshape i]
      unfold placedAt
      have := hc ((A.map_to B).order i)
      by_cases hf : (A.map_to B).flips i = true
      · rw [if_pos hf]
        omega
      · rw [if_neg hf]
        omega
    unfold Stack.get
    rw [if_pos hb]
    refine congrArg some ?_
    rw [npFlip_data, npTranspose_data]
    apply congrArg X.data
    funext k
    simp only [npFlip_shape, npTranspose_shape, permInv_order hA hB, hXsh]
    unfold placedAt
    simp only [order_comp hA hB]
    by_cases hf : (A.map_to B).flips ((B.map_to A).order k) = true
    · simp only [hf, if_true]
      have := hc k
      omega
    · simp [hf]
  · rw [map_points_vec_formula hsh]
    refine congrArg _ (congrArg _ (congrArg
      (fun r => [r] : (Fin 3 → ℚ) → List (Fin 3 → ℚ)) ?_))
    funext i
    rw [hsc, hoff]
    unfold placedAt
    by_cases hf : (A.map_to B).flips i = true
    · rw [hf]
      simp only [if_true]
      have h1 : c ((A.map_to B).order i) + 1 ≤ sh ((A.map_to B).order i) :=
        hc ((A.map_to B).order i)
      have hcast : ((sh ((A.map_to B).order i) - 1 -
          c ((A.map_to B).order i) : ℕ) : ℚ) =
          (sh ((A.map_to B).order i) : ℚ) - 1 -
            (c ((A.map_to B).order i) : ℚ) := by
        rw [Nat.sub_sub]
        rw [Nat.cast_sub (by omega)]
        push_cast
        ring
      rw [hcast]
      ring
    · simp only [hf]
      simp only [Bool.false_eq_true, if_false]
      simp at hf
      simp [hf]

/-- Source space of the C1 scenario: anterior/superior/left with shape
`(2, 1, 1)`. -/
def spASLsh : SpaceConvention :=
  ⟨![.a, .s, .l], some ![2, 1, 1], none, defOffset⟩

/-- The stack produced by mapping `stX211` from `spASLsh` to `spPSL`. -/
def stYC1 : Stack :=
  mapStackPre spASLsh spPSL stX211 zvZero

/-- The point produced by `map_points_to` for the origin voxel of the C1
counterexample. -/
def qC1 : Fin 3 → ℚ :=
  fun i => if i = 0 then 2 else 0

/-- Witness for the C1 theorem at a concrete input. -/
theorem points_track_stack_mapping_witness :
    famInj spASLsh ∧ famInj spPSL ∧ spASLsh.shape = some ![2, 1, 1] ∧
      stX211.shape = ![2, 1, 1] ∧
      (spASLsh.map_to spPSL).scales = (fun _ => 1) ∧
      (spASLsh.map_to spPSL).offsets = (fun _ => 0) ∧
      (∀ i : Fin 3, (fun _ => (0 : ℕ)) i < (![2, 1, 1] : Fin 3 → ℕ) i) ∧
      ∃ Y, map_stack_to spASLsh spPSL stX211 zvZero false =
          .ok (Y, false) ∧
        Y.get (placedAt (spASLsh.map_to spPSL) ![2, 1, 1] fun _ => 0) =
          some (stX211.data fun _ => 0) ∧
        map_points_to spASLsh spPSL (.vec fun i =>
            (((fun _ => (0 : ℕ)) i : ℕ) : ℚ)) = .ok (.mat [fun i =>
          ((placedAt (spASLsh.map_to spPSL) ![2, 1, 1] fun _ => 0) i : ℚ) +
            (if (spASLsh.map_to spPSL).flips i then 1 else 0)]) :=
  ⟨by decide, by decide, rfl, rfl, rfl,
    by
      funext i
      show ((0 : ℚ) - 0) * _ = 0
      simp,
    by decide,
    points_track_stack_mapping spASLsh spPSL ![2, 1, 1] stX211 zvZero
      (fun _ => 0) (by decide) (by decide) rfl rfl rfl
      (by
        funext i
        show ((0 : ℚ) - 0) * _ = 0
        simp)
      (by decide)⟩

/-- Counterexample to claim C1 as stated: mapping the origin voxel of a
2×1×1 anterior/superior/left stack to posterior/superior/left,
`map_points_to` sends integer coordinate `(0,0,0)` to `(2,0,0)`, but the
stack mapping places that voxel at index `(1,0,0)`; coordinate `(2,0,0)`
is not even a readable index of the 2×1×1 mapped stack, so the voxel
label read at the mapped coordinate cannot equal the original label. -/
theorem points_track_stack_counterexample :
    famInj spASLsh ∧ famInj spPSL ∧ spASLsh.shape = some ![2, 1, 1] ∧
      stX211.shape = ![2, 1, 1] ∧
      map_points_to spASLsh spPSL (.vec fun _ => 0) = .ok (.mat [qC1]) ∧
      map_stack_to spASLsh spPSL stX211 zvZero false =
        .ok (stYC1, false) ∧
      stYC1.getQ qC1 = none ∧
      stYC1.getQ qC1 ≠ some (stX211.data fun _ => 0) := by
  have hq : stYC1.getQ qC1 = none := by
    unfold Stack.getQ
    rw [if_neg]
    intro h
    have h0 := (h 0).2.2
    have e : stYC1.shape 0 = 2 := rfl
    rw [e] at h0
    have eq0 : qC1 0 = 2 := rfl
    rw [eq0] at h0
    norm_num at h0
  refine ⟨by decide, by decide, rfl, rfl, ?_, ?_, hq, ?_⟩
  · rw [map_points_vec_formula rfl]
    refine congrArg _ (congrArg _ (congrArg
      (fun r => [r] : (Fin 3 → ℚ) → List (Fin 3 → ℚ)) ?_))
    funext i
    rcases fin3_cases i with hi | hi | hi <;> subst hi
    · have hf : (spASLsh.map_to spPSL).flips 0 = true := by decide
      rw [hf]
      show -(1 : ℚ) * 0 + (((2 : ℕ) : ℚ) + ((0 : ℚ) - 0) * 1) = qC1 0
      have : qC1 0 = 2 := rfl
      rw [this]
      norm_num
    · have hf : (spASLsh.map_to spPSL).flips 1 = false := by decide
      rw [hf]
      show (1 : ℚ) * 0 + ((0 : ℚ) + ((0 : ℚ) - 0) * 1) = qC1 1
      have : qC1 1 = 0 := rfl
      rw [this]
      norm_num
    · have hf : (spASLsh.map_to spPSL).flips 2 = false := by decide
      rw [hf]
      show (1 : ℚ) * 0 + ((0 : ℚ) + ((0 : ℚ) - 0) * 1) = qC1 2
      have : qC1 2 = 0 := rfl
      rw [this]
      norm_num
  · exact map_stack_to_no_target_shape spASLsh spPSL stX211 zvZero
  · rw [hq]
    simp

/-!
Claim C9: behaviour of `map_points_to`.
-/

/-- C9 (amended): `map_points_to` builds the 4×4 matrix, appends the
homogeneous 1-column, applies the matrix and keeps the first three
coordinates of every row — but the numpy expression
`(mat @ pts_h.T).T[:, :3]` always returns a rank-2 array: a single
3-vector input yields a 1×3 result, not a rank-1 one. -/
theorem map_points_applies_matrix (s t : SpaceConvention) (pts : PtsArray)
    (M : Mat4) (hM : transformation_matrix_to s t = .ok M) :
    map_points_to s t pts =
      .ok (.mat ((specRows pts).map (specApplyMat M))) ∧
    (PtsArray.mat ((specRows pts).map (specApplyMat M))).rank = 2 := by
  refine ⟨?_, rfl⟩
  unfold map_points_to
  rw [hM, exc_bind_ok]
  cases pts <;> rfl

/-- Witness for the C9 theorem at a concrete input. -/
theorem map_points_applies_matrix_witness :
    transformation_matrix_to spASLsh spASLsh =
      .ok (tmTriple spASLsh spASLsh ![2, 1, 1]) ∧
    (map_points_to spASLsh spASLsh (.vec fun _ => 0) =
      .ok (.mat ((specRows (.vec fun _ => 0)).map
        (specApplyMat (tmTriple spASLsh spASLsh ![2, 1, 1])))) ∧
    (PtsArray.mat ((specRows (.vec fun _ => 0)).map
      (specApplyMat (tmTriple spASLsh spASLsh ![2, 1, 1])))).rank = 2) :=
  ⟨tm_some rfl,
    map_points_applies_matrix spASLsh spASLsh (.vec fun _ => 0)
      (tmTriple spASLsh spASLsh ![2, 1, 1]) (tm_some rfl)⟩

/-- Counterexample to claim C9 as stated: a single 3-vector input has
rank 1, but `map_points_to` returns a rank-2 (1×3) array, so the array
rank is not preserved relative to the input. -/
theorem map_points_rank_counterexample :
    (PtsArray.vec fun _ => (0 : ℚ)).rank = 1 ∧
    (map_points_to spASL spASL (.vec fun _ => 0)).map PtsArray.rank =
      .ok 2 ∧
    (map_points_to spASL spASL (.vec fun _ => 0)).map PtsArray.rank ≠
      .ok 1 := by
  have hval : (map_points_to spASL spASL (.vec fun _ => 0)).map
      PtsArray.rank = .ok 2 := rfl
  refine ⟨rfl, hval, ?_⟩
  rw [hval]
  simp

/-!
Claim C3: the components returned by `map_to`.
-/

theorem famName_inj : ∀ f g : Family, (f.name = g.name) ↔ f = g := by
  decide

/-- C3: `map_to` returns exactly the order, flips, scales and offsets
described by the specification, all indexed in target axis order. -/
theorem map_to_components_match_spec (s t : SpaceConvention)
    (hs : famInj s) (_ht : famInj t) (i : Fin 3) :
    (((s.map_to t).order i : ℕ) = specOrder s t i) ∧
    ((s.map_to t).flips i = specFlips s t i) ∧
    ((s.map_to t).scales i = specScales s t i) ∧
    ((s.map_to t).offsets i = specOffsets s t i) := by
  have hgetT : t.axes_order.getD i.val "" = ((t.axes i).family).name := by
    rcases fin3_cases i with hi | hi | hi <;> subst hi <;> rfl
  have horder : ((s.map_to t).order i : ℕ) = specOrder s t i := by
    unfold specOrder
    rw [hgetT]
    show (famIndex s ((t.axes i).family) : ℕ) = _
    unfold famIndex SpaceConvention.axes_order
    by_cases h0 : (s.axes 0).family = (t.axes i).family
    · rw [if_pos h0, List.indexOf_cons_eq _ ((famName_inj _ _).mpr h0)]
      rfl
    · rw [if_neg h0, List.indexOf_cons_ne _
        (fun hh => h0 ((famName_inj _ _).mp hh))]
      by_cases h1 : (s.axes 1).family = (t.axes i).family
      · rw [if_pos h1, List.indexOf_cons_eq _ ((famName_inj _ _).mpr h1)]
        rfl
      · rw [if_neg h1, List.indexOf_cons_ne _
          (fun hh => h1 ((famName_inj _ _).mp hh))]
        obtain ⟨k, hk⟩ := famSurj hs ((t.axes i).family)
        have h2 : (s.axes 2).family = (t.axes i).family := by
          rcases fin3_cases k with hkk | hkk | hkk <;> subst hkk
          · exact absurd hk h0
          · exact absurd hk h1
          · exact hk
        rw [List.indexOf_cons_eq _ ((famName_inj _ _).mpr h2)]
        rfl
  have hgetSd : ∀ j : Fin 3, s.axes_description.getD j.val "" =
      (s.axes j).pairStr := by
    intro j
    rcases fin3_cases j with hj | hj | hj <;> subst hj <;> rfl
  have hgetTd : t.axes_description.getD i.val "" = (t.axes i).pairStr := by
    rcases fin3_cases i with hi | hi | hi <;> subst hi <;> rfl
  have hflips : (s.map_to t).flips i = specFlips s t i := by
    unfold specFlips
    rw [← horder]
    have : s.axes_description.getD ((s.map_to t).order i : ℕ) "" =
        (s.axes ((s.map_to t).order i)).pairStr := hgetSd _
    rw [this, hgetTd]
    rfl
  have hordfin : ∀ r : Fin 3 → ℚ,
      r ⟨specOrder s t i % 3, Nat.mod_lt _ (by omega)⟩ =
        r ((s.map_to t).order i) := by
    intro r
    refine congrArg r (Fin.ext ?_)
    show specOrder s t i % 3 = ((s.map_to t).order i : ℕ)
    rw [← horder]
    exact Nat.mod_eq_of_lt ((s.map_to t).order i).isLt
  have hscales : (s.map_to t).scales i = specScales s t i := by
    show (match s.resolution, t.resolution with
      | some rs, some rt => fun j => rs ((s.map_to t).order j) / rt j
      | _, _ => fun _ => (1 : ℚ)) i = specScales s t i
    unfold specScales
    cases hsr : s.resolution with
    | none => cases t.resolution <;> rfl
    | some rs =>
      cases htr : t.resolution with
      | none => rfl
      | some rt =>
        show rs ((s.map_to t).order i) / rt i =
          rs ⟨specOrder s t i % 3, Nat.mod_lt _ (by omega)⟩ / rt i
        rw [hordfin rs]
  have hoffsets : (s.map_to t).offsets i = specOffsets s t i := by
    show (match s.offset, t.offset with
      | some os, some ot => fun j =>
        (os ((s.map_to t).order j) - ot j) * (s.map_to t).scales j
      | _, _ => fun _ => (0 : ℚ)) i = specOffsets s t i
    unfold specOffsets
    cases hso : s.offset with
    | none => cases t.offset <;> rfl
    | some os =>
      cases hto : t.offset with
      | none => rfl
      | some ot =>
        show (os ((s.map_to t).order i) - ot i) * (s.map_to t).scales i =
          (os ⟨specOrder s t i % 3, Nat.mod_lt _ (by omega)⟩ - ot i) *
            specScales s t i
        rw [hordfin os, hscales]
  exact ⟨horder, hflips, hscales, hoffsets⟩

/-- Witness for the C3 theorem at a concrete pair of descriptors and
axis. -/
theorem map_to_components_match_spec_witness :
    famInj spASL ∧ famInj spPSL ∧
      ((((spASL.map_to spPSL).order 0 : ℕ) = specOrder spASL spPSL 0) ∧
      ((spASL.map_to spPSL).flips 0 = specFlips spASL spPSL 0) ∧
      ((spASL.map_to spPSL).scales 0 = specScales spASL spPSL 0) ∧
      ((spASL.map_to spPSL).offsets 0 = specOffsets spASL spPSL 0)) :=
  ⟨by decide, by decide,
    map_to_components_match_spec spASL spPSL (by decide) (by decide) 0⟩

/-!
Claims C5 and C6: the crop/pad step of `map_stack_to`.
-/

theorem pyInt_natCast (n : ℕ) : pyInt (n : ℚ) = n := by
  unfold pyInt
  rw [if_neg (not_lt.mpr (by positivity))]
  exact Int.floor_natCast n

theorem pyInt_zero : pyInt 0 = 0 := by
  unfold pyInt
  rw [if_neg (by norm_num)]
  exact Int.floor_zero

theorem pyRound_zero : pyRound 0 = 0 := by
  have h := pyRound_natCast 0
  simpa using h

theorem pyInt_seventeen_tenths : pyInt ((17 : ℚ) / 10) = 1 := by
  unfold pyInt
  rw [if_neg (by norm_num)]
  rw [Int.floor_eq_iff]
  norm_num

theorem pyRound_seventeen_tenths : pyRound ((17 : ℚ) / 10) = 2 := by
  unfold pyRound
  have hf : ⌊(17 : ℚ) / 10⌋ = 1 := by
    rw [Int.floor_eq_iff]
    norm_num
  rw [hf]
  have h1 : ¬ ((17 : ℚ) / 10 - ((1 : ℤ) : ℚ) < 1 / 2) := by
    push_cast
    norm_num
  have h2 : (1 : ℚ) / 2 < (17 : ℚ) / 10 - ((1 : ℤ) : ℚ) := by
    push_cast
    norm_num
  rw [if_neg h1, if_pos h2]
  decide

/-- The Boolean out-of-bounds test of the source loop agrees with the
specification's wording of the condition. -/
theorem axisOut_iff (s_sh t_sh : ℕ) (off : ℚ) :
    axisOut s_sh t_sh off = true ↔ outSpec pyInt s_sh t_sh off := by
  unfold axisOut outSpec
  simp

/-- With `to_target_shape` requested, a nonzero computed offset and a
target shape present, `map_stack_to` enters the crop/pad loop. -/
theorem map_stack_to_target (s t : SpaceConvention) (stack : Stack)
    (zv : (Fin 3 → ℕ) → ℚ) (tsh : Fin 3 → ℕ) (hsh : t.shape = some tsh)
    (hoff : (s.map_to t).offsets ≠ fun _ => 0) :
    map_stack_to s t stack zv true =
      cropBranch (mapStackPre s t stack zv) tsh (s.map_to t).offsets := by
  simp only [map_stack_to, hsh]
  rw [if_pos (And.intro hoff (by trivial))]

/-- When the crop/pad branch is reached and no axis is entirely out of
bounds, `map_stack_to` performs the slice assignment. -/
theorem map_stack_crop (s t : SpaceConvention) (stack : Stack)
    (zv : (Fin 3 → ℕ) → ℚ) (tsh : Fin 3 → ℕ) (hsh : t.shape = some tsh)
    (hoff : (s.map_to t).offsets ≠ fun _ => 0)
    (hok : ∀ i, ¬ outSpec pyInt ((mapStackPre s t stack zv).shape i)
      (tsh i) ((s.map_to t).offsets i)) :
    map_stack_to s t stack zv true =
      .ok (cropAssign (mapStackPre s t stack zv) tsh
        (s.map_to t).offsets, false) := by
  rw [map_stack_to_target s t stack zv tsh hsh hoff]
  unfold cropBranch
  rw [if_neg (fun hc => hok 0 ((axisOut_iff _ _ _).mp hc)),
    if_neg (fun hc => hok 1 ((axisOut_iff _ _ _).mp hc)),
    if_neg (fun hc => hok 2 ((axisOut_iff _ _ _).mp hc))]

/-- C5: with `to_target_shape` requested, a nonzero computed offset and
some axis whose integer translation puts the transformed data entirely
outside the target extent (`o >= t`, or `o < 0` and `-o >= s`), the call
emits the boundary warning and returns the all-zero target-shaped
buffer instead of failing. -/
theorem out_of_bounds_warns_and_returns_zeros (s t : SpaceConvention)
    (stack : Stack) (zv : (Fin 3 → ℕ) → ℚ) (tsh : Fin 3 → ℕ)
    (hsh : t.shape = some tsh)
    (hoff : (s.map_to t).offsets ≠ fun _ => 0)
    (hex : ∃ i, outSpec pyInt ((mapStackPre s t stack zv).shape i)
      (tsh i) ((s.map_to t).offsets i)) :
    map_stack_to s t stack zv true = .ok (zeros tsh, true) := by
  rw [map_stack_to_target s t stack zv tsh hsh hoff]
  unfold cropBranch
  by_cases c0 : axisOut ((mapStackPre s t stack zv).shape 0) (tsh 0)
      ((s.map_to t).offsets 0) = true
  · rw [if_pos c0]
  · rw [if_neg c0]
    by_cases c1 : axisOut ((mapStackPre s t stack zv).shape 1) (tsh 1)
        ((s.map_to t).offsets 1) = true
    · rw [if_pos c1]
    · rw [if_neg c1]
      by_cases c2 : axisOut ((mapStackPre s t stack zv).shape 2) (tsh 2)
          ((s.map_to t).offsets 2) = true
      · rw [if_pos c2]
      · exfalso
        rcases hex with ⟨i, hi⟩
        rcases fin3_cases i with h | h | h <;> subst h
        · exact c0 ((axisOut_iff _ _ _).mpr hi)
        · exact c1 ((axisOut_iff _ _ _).mpr hi)
        · exact c2 ((axisOut_iff _ _ _).mpr hi)

/-- Source space with a large offset along the first axis, and a target
with shape `(2, 2, 2)`: the translated stack misses the target
entirely. -/
def spOffFar : SpaceConvention :=
  ⟨![.a, .s, .l], none, none, some ![5, 0, 0]⟩

def spTgt222 : SpaceConvention :=
  ⟨![.a, .s, .l], some ![2, 2, 2], none, defOffset⟩

theorem offsFar_0 : (spOffFar.map_to spTgt222).offsets 0 = 5 := by
  show ((5 : ℚ) - 0) * 1 = 5
  norm_num

/-- Witness for the C5 theorem at a concrete input. -/
theorem out_of_bounds_warns_witness :
    spTgt222.shape = some ![2, 2, 2] ∧
      (spOffFar.map_to spTgt222).offsets ≠ (fun _ => 0) ∧
      (∃ i, outSpec pyInt
        ((mapStackPre spOffFar spTgt222 stX211 zvZero).shape i)
        ((![2, 2, 2] : Fin 3 → ℕ) i)
        ((spOffFar.map_to spTgt222).offsets i)) ∧
      map_stack_to spOffFar spTgt222 stX211 zvZero true =
        .ok (zeros ![2, 2, 2], true) := by
  have hoff : (spOffFar.map_to spTgt222).offsets ≠ (fun _ => (0 : ℚ)) := by
    intro h
    have h0 := congrFun h 0
    rw [offsFar_0] at h0
    norm_num at h0
  have hex : ∃ i, outSpec pyInt
      ((mapStackPre spOffFar spTgt222 stX211 zvZero).shape i)
      ((![2, 2, 2] : Fin 3 → ℕ) i)
      ((spOffFar.map_to spTgt222).offsets i) := by
    refine ⟨0, Or.inl ?_⟩
    rw [offsFar_0, show (5 : ℚ) = ((5 : ℕ) : ℚ) by norm_num, pyInt_natCast]
    decide
  exact ⟨rfl, hoff, hex,
    out_of_bounds_warns_and_returns_zeros spOffFar spTgt222 stX211 zvZero
      ![2, 2, 2] rfl hoff hex⟩

/-- C6 (amended): in the crop/pad step the integer per-axis translation
`o` used for the bounds test and the slices is `int(offsets[i])` —
truncation toward zero — not `round(offsets[i])`: the produced buffer is
exactly the slice assignment built from the truncated offsets. -/
theorem crop_uses_int_truncation (s t : SpaceConvention) (stack : Stack)
    (zv : (Fin 3 → ℕ) → ℚ) (tsh : Fin 3 → ℕ) (hsh : t.shape = some tsh)
    (hoff : (s.map_to t).offsets ≠ fun _ => 0)
    (hok : ∀ i, ¬ outSpec pyInt ((mapStackPre s t stack zv).shape i)
      (tsh i) ((s.map_to t).offsets i)) :
    map_stack_to s t stack zv true =
      .ok (cropSpec pyInt (mapStackPre s t stack zv) tsh
        (s.map_to t).offsets, false) := by
  rw [map_stack_crop s t stack zv tsh hsh hoff hok]
  refine congrArg _ (congrArg (fun st => (st, false)) ?_)
  unfold cropAssign cropSpec
  refine congrArg (Stack.mk tsh) ?_
  funext v
  by_cases h : inCropWindow (mapStackPre s t stack zv).shape tsh
      (s.map_to t).offsets v
  · rw [if_pos h, if_pos (show windowSpec pyInt
      (mapStackPre s t stack zv).shape tsh (s.map_to t).offsets v from h)]
  · rw [if_neg h, if_neg (show ¬ windowSpec pyInt
      (mapStackPre s t stack zv).shape tsh (s.map_to t).offsets v from h)]

/-- Concrete spaces of the C6 scenario: a source offset of 1.7 along the
first axis, target shape `(4, 1, 1)`, and a 2×1×1 stack with labels 10
and 20. -/
def spOffC : SpaceConvention :=
  ⟨![.a, .s, .l], none, none, some ![17 / 10, 0, 0]⟩

def spTgtC : SpaceConvention :=
  ⟨![.a, .s, .l], some ![4, 1, 1], none, defOffset⟩

def stC6 : Stack :=
  ⟨![2, 1, 1], fun v => ((10 * v 0 + 10 : ℕ) : ℚ)⟩

def stC6pre : Stack :=
  mapStackPre spOffC spTgtC stC6 zvZero

def stC6out : Stack :=
  cropAssign stC6pre ![4, 1, 1] (spOffC.map_to spTgtC).offsets

theorem offsC6_0 : (spOffC.map_to spTgtC).offsets 0 = 17 / 10 := by
  show ((17 / 10 : ℚ) - 0) * 1 = 17 / 10
  norm_num

theorem offsC6_1 : (spOffC.map_to spTgtC).offsets 1 = 0 := by
  show ((0 : ℚ) - 0) * 1 = 0
  norm_num

theorem offsC6_2 : (spOffC.map_to spTgtC).offsets 2 = 0 := by
  show ((0 : ℚ) - 0) * 1 = 0
  norm_num

theorem pyIntC6_0 : pyInt ((spOffC.map_to spTgtC).offsets 0) = 1 := by
  rw [offsC6_0]
  exact pyInt_seventeen_tenths

theorem pyIntC6_1 : pyInt ((spOffC.map_to spTgtC).offsets 1) = 0 := by
  rw [offsC6_1]
  exact pyInt_zero

theorem pyIntC6_2 : pyInt ((spOffC.map_to spTgtC).offsets 2) = 0 := by
  rw [offsC6_2]
  exact pyInt_zero

theorem pyRoundC6_0 : pyRound ((spOffC.map_to spTgtC).offsets 0) = 2 := by
  rw [offsC6_0]
  exact pyRound_seventeen_tenths

theorem pyRoundC6_1 : pyRound ((spOffC.map_to spTgtC).offsets 1) = 0 := by
  rw [offsC6_1]
  exact pyRound_zero

theorem pyRoundC6_2 : pyRound ((spOffC.map_to spTgtC).offsets 2) = 0 := by
  rw [offsC6_2]
  exact pyRound_zero

theorem hoffC6 : (spOffC.map_to spTgtC).offsets ≠ (fun _ => (0 : ℚ)) := by
  intro h
  have h0 := congrFun h 0
  rw [offsC6_0] at h0
  norm_num at h0

theorem hokC6 : ∀ i, ¬ outSpec pyInt (stC6pre.shape i)
    ((![4, 1, 1] : Fin 3 → ℕ) i) ((spOffC.map_to spTgtC).offsets i) := by
  intro i
  rcases fin3_cases i with h | h | h <;> subst h <;> unfold outSpec
  · rw [pyIntC6_0]
    decide
  · rw [pyIntC6_1]
    decide
  · rw [pyIntC6_2]
    decide

/-- Witness for the C6 theorem at a concrete input. -/
theorem crop_uses_int_truncation_witness :
    spTgtC.shape = some ![4, 1, 1] ∧
      (spOffC.map_to spTgtC).offsets ≠ (fun _ => 0) ∧
      (∀ i, ¬ outSpec pyInt
        ((mapStackPre spOffC spTgtC stC6 zvZero).shape i)
        ((![4, 1, 1] : Fin 3 → ℕ) i)
        ((spOffC.map_to spTgtC).offsets i)) ∧
      map_stack_to spOffC spTgtC stC6 zvZero true =
        .ok (cropSpec pyInt (mapStackPre spOffC spTgtC stC6 zvZero)
          ![4, 1, 1] (spOffC.map_to spTgtC).offsets, false) :=
  ⟨rfl, hoffC6, hokC6,
    crop_uses_int_truncation spOffC spTgtC stC6 zvZero ![4, 1, 1] rfl
      hoffC6 hokC6⟩

/-- Counterexample to claim C6 as stated: with a fractional offset of
1.7 the code truncates (`int(1.7) = 1`) while the claim rounds
(`round(1.7) = 2`); at target index `(2,0,0)` the produced buffer holds
the source label 20 whereas the rounded-slice prediction holds 10, so
`map_stack_to` does not implement the rounded slices. -/
theorem crop_rounding_counterexample :
    (spOffC.map_to spTgtC).offsets 0 = 17 / 10 ∧
      map_stack_to spOffC spTgtC stC6 zvZero true = .ok (stC6out, false) ∧
      stC6out.data ![2, 0, 0] = 20 ∧
      (cropSpec pyRound stC6pre ![4, 1, 1]
        (spOffC.map_to spTgtC).offsets).data ![2, 0, 0] = 10 ∧
      map_stack_to spOffC spTgtC stC6 zvZero true ≠
        .ok (cropSpec pyRound stC6pre ![4, 1, 1]
          (spOffC.map_to spTgtC).offsets, false) := by
  have hmap : map_stack_to spOffC spTgtC stC6 zvZero true =
      .ok (stC6out, false) :=
    map_stack_crop spOffC spTgtC stC6 zvZero ![4, 1, 1] rfl hoffC6 hokC6
  have hwin : inCropWindow stC6pre.shape ![4, 1, 1]
      (spOffC.map_to spTgtC).offsets ![2, 0, 0] := by
    intro i
    rcases fin3_cases i with h | h | h <;> subst h
    · rw [pyIntC6_0]
      decide
    · rw [pyIntC6_1]
      decide
    · rw [pyIntC6_2]
      decide
  have hdata : stC6out.data ![2, 0, 0] = 20 := by
    unfold stC6out cropAssign
    dsimp only
    rw [if_pos hwin]
    have hidx : (fun i => (((![2, 0, 0] : Fin 3 → ℕ) i : ℤ) -
        pyInt ((spOffC.map_to spTgtC).offsets i)).toNat) =
        (![1, 0, 0] : Fin 3 → ℕ) := by
      funext i
      rcases fin3_cases i with h | h | h <;> subst h
      · rw [pyIntC6_0]
        decide
      · rw [pyIntC6_1]
        decide
      · rw [pyIntC6_2]
        decide
    rw [hidx]
    show ((10 * 1 + 10 : ℕ) : ℚ) = 20
    norm_num
  have hwinR : windowSpec pyRound stC6pre.shape ![4, 1, 1]
      (spOffC.map_to spTgtC).offsets ![2, 0, 0] := by
    intro i
    rcases fin3_cases i with h | h | h <;> subst h
    · rw [pyRoundC6_0]
      decide
    · rw [pyRoundC6_1]
      decide
    · rw [pyRoundC6_2]
      decide
  have hspec : (cropSpec pyRound stC6pre ![4, 1, 1]
      (spOffC.map_to spTgtC).offsets).data ![2, 0, 0] = 10 := by
    unfold cropSpec
    dsimp only
    rw [if_pos hwinR]
    have hidx : (fun i => (((![2, 0, 0] : Fin 3 → ℕ) i : ℤ) -
        pyRound ((spOffC.map_to spTgtC).offsets i)).toNat) =
        (![0, 0, 0] : Fin 3 → ℕ) := by
      funext i
      rcases fin3_cases i with h | h | h <;> subst h
      · rw [pyRoundC6_0]
        decide
      · rw [pyRoundC6_1]
        decide
      · rw [pyRoundC6_2]
        decide
    rw [hidx]
    show ((10 * 0 + 10 : ℕ) : ℚ) = 10
    norm_num
  refine ⟨offsC6_0, hmap, hdata, hspec, ?_⟩
  intro h
  rw [hmap] at h
  have hst : stC6out = cropSpec pyRound stC6pre ![4, 1, 1]
      (spOffC.map_to spTgtC).offsets := by
    have := congrArg (fun e => match e with
      | Except.ok (p : Stack × Bool) => p.1
      | Except.error _ => stC6out) h
    simpa using this
  have := congrArg (fun st : Stack => st.data ![2, 0, 0]) hst
  dsimp only at this
  rw [hdata, hspec] at this
  norm_num at this

/-!
Claims C7, C8 and C10: descriptor construction.
-/

/-- The origin specification string "asl", iterated into its three
characters. -/
def toksASL : List Token :=
  [.str "a", .str "s", .str "l"]

/-- C7: the descriptor built from "asl" has
`axes_description = ("ap", "si", "lr")`,
`axes_order = ("sagittal", "vertical", "frontal")` and
`origin = ("a", "s", "l")`. -/
theorem construct_asl_descriptor :
    (init toksASL none none defOffset).map
      (fun S => (S.axes_description, S.axes_order, S.origin)) =
      .ok (["ap", "si", "lr"], ["sagittal", "vertical", "frontal"],
        ["a", "s", "l"]) := by
  decide

/-- A non-string token makes the first-character comprehension raise a
TypeError (provided no earlier token is an empty string, which would
raise IndexError first). -/
theorem firstLowerAll_nonStr_error (toks : List Token)
    (hne : ∀ s, Token.str s ∈ toks → s.data ≠ [])
    (hmem : Token.nonStr ∈ toks) :
    firstLowerAll toks = .error .typeError := by
  induction toks with
  | nil => simp at hmem
  | cons t rest ih =>
    cases t with
    | nonStr => rfl
    | str s =>
      have hs : s.data ≠ [] := hne s (by simp)
      have hrest : Token.nonStr ∈ rest := by
        rcases List.mem_cons.mp hmem with h | h
        · cases h
        · exact h
      cases hd : s.data with
      | nil => exact absurd hd hs
      | cons c cs =>
        have hc : tokenFirstLower (.str s) = .ok c.toLower := by
          simp only [tokenFirstLower]
          rw [hd]
        have hr : firstLowerAll rest = .error .typeError :=
          ih (fun s2 hs2 => hne s2 (List.mem_cons_of_mem _ hs2)) hrest
        simp only [firstLowerAll, hc, exc_bind_ok, hr, exc_bind_error]

/-- C8 (amended): an origin specification with a non-string token fails
descriptor construction with a TypeError (raised by the first-character
comprehension), while a 3-token all-string specification containing a
token whose lowercased first character is outside the 6-letter label set
{p,a,s,i,l,r} fails with an AssertionError (the `len == 3` assertion),
not a TypeError; in both cases no descriptor is produced. -/
theorem invalid_origin_fails :
    (∀ toks : List Token, (∀ s, Token.str s ∈ toks → s.data ≠ []) →
      Token.nonStr ∈ toks →
      init toks none none defOffset = .error .typeError) ∧
    (∀ toks : List Token, toks.length = 3 →
      (∀ t ∈ toks, ∃ c, tokenFirstLower t = .ok c) →
      (∃ t ∈ toks, ∃ c, tokenFirstLower t = .ok c ∧ letterOfChar c = none) →
      init toks none none defOffset = .error .assertionError) := by
  constructor
  · intro toks hne hmem
    unfold init
    rw [firstLowerAll_nonStr_error toks hne hmem]
    rfl
  · intro toks hlen hall hbad
    rcases List.length_eq_three.mp hlen with ⟨t1, t2, t3, rfl⟩
    obtain ⟨c1, hc1⟩ := hall t1 (by simp)
    obtain ⟨c2, hc2⟩ := hall t2 (by simp)
    obtain ⟨c3, hc3⟩ := hall t3 (by simp)
    have hmap : firstLowerAll [t1, t2, t3] = .ok [c1, c2, c3] := by
      simp only [firstLowerAll, hc1, hc2, hc3, exc_bind_ok]
    have hnone : letterOfChar c1 = none ∨ letterOfChar c2 = none ∨
        letterOfChar c3 = none := by
      rcases hbad with ⟨t, ht, c, hc, hn⟩
      have ht3 : t = t1 ∨ t = t2 ∨ t = t3 := by simpa using ht
      rcases ht3 with rfl | rfl | rfl
      · rw [hc1] at hc
        injection hc with e
        subst e
        exact Or.inl hn
      · rw [hc2] at hc
        injection hc with e
        subst e
        exact Or.inr (Or.inl hn)
      · rw [hc3] at hc
        injection hc with e
        subst e
        exact Or.inr (Or.inr hn)
    have hlt : (List.filterMap letterOfChar [c1, c2, c3]).length ≠ 3 := by
      have hb3 := List.length_filterMap_le letterOfChar [c3]
      have hb23 := List.length_filterMap_le letterOfChar [c2, c3]
      simp only [List.length_cons, List.length_nil] at hb3 hb23
      rcases hnone with h | h | h
      · rw [List.filterMap_cons_none h]
        omega
      · cases e1 : letterOfChar c1 with
        | none =>
          rw [List.filterMap_cons_none e1, List.filterMap_cons_none h]
          omega
        | some x =>
          rw [List.filterMap_cons_some e1, List.length_cons,
            List.filterMap_cons_none h]
          omega
      · cases e1 : letterOfChar c1 with
        | none =>
          cases e2 : letterOfChar c2 with
          | none =>
            rw [List.filterMap_cons_none e1, List.filterMap_cons_none e2,
              List.filterMap_cons_none h, List.filterMap_nil]
            simp only [List.length_nil]
            omega
          | some y =>
            rw [List.filterMap_cons_none e1, List.filterMap_cons_some e2,
              List.length_cons, List.filterMap_cons_none h,
              List.filterMap_nil]
            simp only [List.length_nil]
            omega
        | some x =>
          cases e2 : letterOfChar c2 with
          | none =>
            rw [List.filterMap_cons_some e1, List.length_cons,
              List.filterMap_cons_none e2, List.filterMap_cons_none h,
              List.filterMap_nil]
            simp only [List.length_nil]
            omega
          | some y =>
            rw [List.filterMap_cons_some e1, List.length_cons,
              List.filterMap_cons_some e2, List.length_cons,
              List.filterMap_cons_none h, List.filterMap_nil]
            simp only [List.length_nil]
            omega
    unfold init
    simp only [hmap, exc_bind_ok]
    rw [if_neg hlt]

/-- Witness for the C8 theorem: both parts at concrete specifications. -/
theorem invalid_origin_fails_witness :
    ((∀ s, Token.str s ∈
        ([.str "r", .str "s", .nonStr] : List Token) → s.data ≠ []) ∧
      Token.nonStr ∈ ([.str "r", .str "s", .nonStr] : List Token) ∧
      init [.str "r", .str "s", .nonStr] none none defOffset =
        .error .typeError) ∧
    ((([.str "r", .str "v", .str "u"] : List Token).length = 3) ∧
      (∀ t ∈ ([.str "r", .str "v", .str "u"] : List Token),
        ∃ c, tokenFirstLower t = .ok c) ∧
      (∃ t ∈ ([.str "r", .str "v", .str "u"] : List Token),
        ∃ c, tokenFirstLower t = .ok c ∧ letterOfChar c = none) ∧
      init [.str "r", .str "v", .str "u"] none none defOffset =
        .error .assertionError) := by
  have hne : ∀ s, Token.str s ∈
      ([.str "r", .str "s", .nonStr] : List Token) → s.data ≠ [] := by
    intro s hs
    have : s = "r" ∨ s = "s" := by simpa using hs
    rcases this with rfl | rfl <;> decide
  have hall : ∀ t ∈ ([.str "r", .str "v", .str "u"] : List Token),
      ∃ c, tokenFirstLower t = .ok c := by
    intro t ht
    have : t = .str "r" ∨ t = .str "v" ∨ t = .str "u" := by simpa using ht
    rcases this with rfl | rfl | rfl
    · exact ⟨'r', by decide⟩
    · exact ⟨'v', by decide⟩
    · exact ⟨'u', by decide⟩
  have hbad : ∃ t ∈ ([.str "r", .str "v", .str "u"] : List Token),
      ∃ c, tokenFirstLower t = .ok c ∧ letterOfChar c = none :=
    ⟨.str "v", by simp, 'v', by decide, by decide⟩
  exact ⟨⟨hne, by simp, invalid_origin_fails.1 _ hne (by simp)⟩,
    ⟨rfl, hall, hbad, invalid_origin_fails.2 _ rfl hall hbad⟩⟩

/-- Counterexample to claim C8 as stated: the all-string specification
"rvu" contains the non-member letter v, and construction fails — but
with an AssertionError, not a TypeError. -/
theorem invalid_origin_counterexample :
    init [.str "r", .str "v", .str "u"] none none defOffset =
      .error .assertionError ∧
    (Except.error PyErr.assertionError :
      Except PyErr SpaceConvention) ≠ .error .typeError := by
  constructor
  · decide
  · simp

/-- The letter characters are already lowercase. -/
theorem letter_char_toLower (lt : Letter) : lt.char.toLower = lt.char := by
  cases lt <;> decide

theorem letterOfChar_char (lt : Letter) : letterOfChar lt.char = some lt := by
  cases lt <;> rfl

theorem tokenFirstLower_letter (lt : Letter) :
    tokenFirstLower (.str (String.mk [lt.char])) = .ok lt.char := by
  cases lt <;> rfl

/-- C10: feeding a constructed descriptor back to the constructor (the
constructor iterates it, obtaining its origin letters) succeeds and
reproduces the same `axes_description`: descriptor normalisation is
idempotent at the descriptor level. -/
theorem descriptor_reconstruction (toks : List Token)
    (sh : Option (Fin 3 → ℕ)) (res : Option (Fin 3 → ℚ))
    (off : Option (Fin 3 → ℚ)) (S : SpaceConvention)
    (h : init toks sh res off = .ok S) :
    ∃ T, init (iterTokens S) none none defOffset = .ok T ∧
      T.axes_description = S.axes_description := by
  unfold init at h
  cases hm : firstLowerAll toks with
  | error e =>
    rw [hm] at h
    simp only [exc_bind_error] at h
    cases h
  | ok chars =>
    rw [hm] at h
    simp only [exc_bind_ok] at h
    by_cases h3 : (chars.filterMap letterOfChar).length = 3
    case neg =>
      rw [if_neg h3] at h
      cases h
    rw [if_pos h3] at h
    by_cases hnd : ((chars.filterMap letterOfChar).map Letter.pairStr).Nodup
    case neg =>
      rw [if_neg hnd] at h
      cases h
    rw [if_pos hnd] at h
    injection h with h
    obtain ⟨la, lb, lc, habc⟩ := List.length_eq_three.mp h3
    rw [habc] at hnd
    subst h
    rw [habc]
    have hmap2 : firstLowerAll (iterTokens
        (⟨fun i => [la, lb, lc].getD i.val Letter.p, sh, res, off⟩ :
          SpaceConvention)) = .ok [la.char, lb.char, lc.char] := by
      show firstLowerAll [.str (String.mk [la.char]),
        .str (String.mk [lb.char]), .str (String.mk [lc.char])] = _
      simp only [firstLowerAll, tokenFirstLower_letter, exc_bind_ok]
    refine ⟨⟨fun i => [la, lb, lc].getD i.val Letter.p, none, none,
      defOffset⟩, ?_, rfl⟩
    unfold init
    simp only [hmap2, exc_bind_ok]
    have hfm : List.filterMap letterOfChar [la.char, lb.char, lc.char] =
        [la, lb, lc] := by
      simp [List.filterMap_cons, letterOfChar_char]
    rw [hfm]
    have hlen3 : ([la, lb, lc] : List Letter).length = 3 := rfl
    rw [if_pos hlen3, if_pos hnd]

/-- The descriptor produced by parsing "asl". -/
def spASLparsed : SpaceConvention :=
  ⟨fun i => [Letter.a, Letter.s, Letter.l].getD i.val Letter.p, none, none,
    defOffset⟩

/-- Witness for the C10 theorem at a concrete constructed descriptor. -/
theorem descriptor_reconstruction_witness :
    init toksASL none none defOffset = .ok spASLparsed ∧
      ∃ T, init (iterTokens spASLparsed) none none defOffset = .ok T ∧
        T.axes_description = spASLparsed.axes_description :=
  ⟨by decide,
    descriptor_reconstruction toksASL none none defOffset spASLparsed
      (by decide)⟩

end BGSpace
